import Mathlib

/-!
Verification of the scoring-and-persistence module of the HackathonProcess
repository (`src/scoring.py`).

The module is embedded shallowly:

* Python floats are modelled as rationals (`ℚ`).  All scores the program
  produces are `round(x, 2)` results, i.e. rationals with denominator
  dividing 100; the decimal rendering of such a score (Python's shortest
  float `repr`, e.g. `85.5`, `80.0`, `33.33`) is modelled exactly by
  `renderScore`.
* CSV cell values are plain strings; a pandas `NaN` cell (empty CSV field)
  is modelled as the empty string where the code's `pd.isna`/`astype(str)`
  handling makes the two indistinguishable, and as `Option.none` in the
  recent/audit rows where `dropna(how="all")` inspects NA-ness.
* The filesystem state of each of the three ledger files is a `CsvFile`:
  `absent` (file does not exist), `unreadable msg` (`pd.read_csv` raises an
  exception with message `msg`), `wrongSchema` (readable but a required
  column is missing), or `table rows` (well-formed contents).
* The uploaded submission and the answer file are modelled by inductives
  that record the outcome of `pd.read_csv` / column lookup /
  `astype(int)`: each constructor corresponds to one branch the Python
  code can take, exception messages carried as payloads.
* Exception propagation is modelled with `Except`: `_save_score`, which
  has no try/except around its `pd.read_csv`, returns
  `Except String (List ScoreRow)`; the two writers that do catch
  (`_append_recent`, `_append_save_db`) are total functions.
* `datetime.now()` is passed in as the `now : String` argument.
-/

namespace Scoring

/-! ### Decimal rendering and parsing of score cells -/

/-- The character for decimal digit `d` (meaningful for `d < 10`). -/
def digitChar (d : ℕ) : Char := Char.ofNat (48 + d)

/-- Digit characters of `n`, most significant first; structurally recursive
on a fuel argument so that it evaluates inside the kernel. -/
def natCharsAux : ℕ → ℕ → List Char
  | 0, _ => []
  | _, 0 => []
  | fuel + 1, n + 1 => natCharsAux fuel ((n + 1) / 10) ++ [digitChar ((n + 1) % 10)]

/-- Decimal digit characters of `m`, most significant first (Python `str(int)`). -/
def natChars (m : ℕ) : List Char :=
  if m = 0 then [digitChar 0] else natCharsAux m m

/-- Fractional part (in hundredths `f`, `f < 100`) as rendered by Python's
float `repr`: trailing zeros dropped but at least one digit kept. -/
def fracChars (f : ℕ) : List Char :=
  if f = 0 then [digitChar 0]
  else if f % 10 = 0 then [digitChar (f / 10)]
  else [digitChar (f / 10), digitChar (f % 10)]

/-- Decimal rendering of the score `m / 100` (`m` in centi-points):
integer part, a dot, then the fraction.  E.g. `8550 ↦ "85.5"`,
`8000 ↦ "80.0"`, `3333 ↦ "33.33"`. -/
def renderCenti (m : ℕ) : List Char := natChars (m / 100) ++ '.' :: fracChars (m % 100)

/-- Python `f"{score}"` for a score float.  Every score the program produces
is `round(x, 2)`, a nonnegative rational with denominator dividing 100, and
for those the shortest-repr rendering is modelled exactly by `renderCenti`.
Other rationals do not arise as scores; for totality they render as `""`. -/
def renderScore (q : ℚ) : String :=
  if (q * 100).den = 1 ∧ 0 ≤ q then String.mk (renderCenti (q * 100).num.toNat) else ""

/-- Whitespace test used by the model of Python `str.strip`. -/
def wsp (c : Char) : Bool := c.isWhitespace

/-- Python `str.strip()`: drop whitespace from both ends. -/
def trimChars (l : List Char) : List Char :=
  ((l.dropWhile wsp).reverse.dropWhile wsp).reverse

/-- Python `str.strip()` at the `String` level (pandas `.str.strip()`),
written over the character list so that it evaluates inside the kernel. -/
def strTrim (s : String) : String := String.mk (trimChars s.data)

/-- Numeric value of a digit character. -/
def digitVal (c : Char) : ℕ := c.toNat - 48

/-- Value of a big-endian digit-character list. -/
def natOfChars (l : List Char) : ℕ := l.foldl (fun a c => 10 * a + digitVal c) 0

/-- Python `float(s)` on an unsigned decimal literal: digits, optionally a
dot and more digits, at least one digit overall.  (Exotic float syntax —
exponents, `inf`, `nan`, underscores — is not produced by any cell this
program writes and is not modelled.) -/
def floatOfCharsNN (l : List Char) : Option ℚ :=
  let intPart := l.takeWhile (fun c => c.isDigit)
  let rest := l.dropWhile (fun c => c.isDigit)
  match rest with
  | [] => if intPart.isEmpty then none else some ((natOfChars intPart : ℚ))
  | c :: fr =>
    if c = '.' then
      if fr.all (fun c => c.isDigit) && (!intPart.isEmpty || !fr.isEmpty) then
        some ((natOfChars intPart : ℚ) + (natOfChars fr : ℚ) / 10 ^ fr.length)
      else none
    else none

/-- Python `float(s)`, allowing a leading sign. -/
def floatOfChars (l : List Char) : Option ℚ :=
  match l with
  | [] => none
  | c :: cs =>
    if c = '-' then (floatOfCharsNN cs).map (fun q => -q)
    else if c = '+' then floatOfCharsNN cs
    else floatOfCharsNN (c :: cs)

/-- `_parse_score_from_cell`: extract the score from a best-score cell such
as `"85.5(2025-02-03 14:30:00)"`; `-1` when the cell is empty/NA or the
prefix before the parenthesis is not a float literal. -/
def parse_score_from_cell (cell : String) : ℚ :=
  let t := trimChars cell.data
  if t.isEmpty then -1
  else
    let pre := trimChars (t.takeWhile (fun c => c != '('))
    match floatOfChars pre with
    | some q => q
    | none => -1

/-! ### Data model -/

/-- The two grading tracks. -/
inductive Case where
  | case2
  | case3
deriving DecidableEq, Repr

/-- String name of a case (the value stored in the recent/audit `case` column). -/
def caseStr : Case → String
  | .case2 => "case2"
  | .case3 => "case3"

/-- The other grading track. -/
def otherCase : Case → Case
  | .case2 => .case3
  | .case3 => .case2

/-- `ANSWER_FILES[case].name`. -/
def answerName : Case → String
  | .case2 => "case2_answer.csv"
  | .case3 => "case3_answer.csv"

/-- A row of `save_score.csv` (columns `team, case2, case3`); empty string
models an empty/NA cell. -/
structure ScoreRow where
  team : String
  case2 : String
  case3 : String
deriving DecidableEq, Repr

/-- `df.at[idx, case]`. -/
def getCell (r : ScoreRow) : Case → String
  | .case2 => r.case2
  | .case3 => r.case3

/-- `df.at[idx, case] = value`. -/
def setCell (r : ScoreRow) : Case → String → ScoreRow
  | .case2, v => { r with case2 := v }
  | .case3, v => { r with case3 := v }

/-- A row of `score_recent.csv` / `save_db.csv` (columns
`team, case, score, submitted_at`); `none` models a NaN cell. -/
structure RecentRow where
  team : Option String
  caseName : Option String
  score : Option String
  submitted_at : Option String
deriving DecidableEq, Repr

/-- A row all of whose cells are NA (dropped by `dropna(how="all")`). -/
def rowAllNA (r : RecentRow) : Bool :=
  r.team.isNone && r.caseName.isNone && r.score.isNone && r.submitted_at.isNone

/-- State of one persisted CSV file. -/
inductive CsvFile (ρ : Type) where
  | absent
  | unreadable (msg : String)
  | wrongSchema
  | table (rows : List ρ)
deriving DecidableEq, Repr

/-- The rows `pd.read_csv` + schema check effectively yield for the writers
that reset on every failure (anything but a well-formed table reads as empty). -/
def baseRows {ρ : Type} : CsvFile ρ → List ρ
  | .table rows => rows
  | _ => []

/-- The three persisted files owned by the module. -/
structure Ledger where
  saveScore : CsvFile ScoreRow
  recent : CsvFile RecentRow
  saveDb : CsvFile RecentRow
deriving DecidableEq, Repr

/-- Outcome of loading the uploaded bytes: `pd.read_csv` raises, the table
lacks a `predict` column, `astype(int)` on it raises, or integer
predictions are obtained. -/
inductive UploadData where
  | unreadable (msg : String)
  | noPredict
  | badPredict (msg : String)
  | predict (vals : List ℤ)
deriving DecidableEq, Repr

/-- Outcome of loading the answer file for the chosen case. -/
inductive AnswerFile where
  | absent
  | unreadable (msg : String)
  | noAnswerCol
  | badAnswer (msg : String)
  | answers (vals : List ℤ)
deriving DecidableEq, Repr

/-- Submission outcome status. -/
inductive Status where
  | ok
  | error
deriving DecidableEq, Repr

/-- The dictionary `run_scoring` returns. -/
structure ScoringResult where
  score : ℚ
  details : String
  status : Status
deriving DecidableEq, Repr

/-! ### Scorer -/

/-- Number of index-aligned equal pairs. -/
def countEq (a b : List ℤ) : ℕ := (a.zip b).countP (fun p => p.1 == p.2)

/-- `sklearn.metrics.accuracy_score`: fraction of positions where
prediction equals ground truth (call sites pass equal-length lists). -/
def accuracy_score (y_true y_pred : List ℤ) : ℚ :=
  (countEq y_true y_pred : ℚ) / (y_true.length : ℚ)

/-- Python `round` to an integer: round-half-to-even. -/
def roundHalfEven (q : ℚ) : ℤ :=
  let f := ⌊q⌋
  if q - f < 1 / 2 then f
  else if 1 / 2 < q - f then f + 1
  else if Even f then f else f + 1

/-- Python `round(x, 2)`. -/
def round2 (x : ℚ) : ℚ := (roundHalfEven (x * 100) : ℚ) / 100

/-! ### Score Ledger writers -/

/-- `f"{team_id}팀"`. -/
def teamLabel (team_id : ℤ) : String := toString team_id ++ "팀"

/-- The composite cell value `f"{score}({submitted_at})"`. -/
def scoreValue (score : ℚ) (submitted_at : String) : String :=
  renderScore score ++ "(" ++ submitted_at ++ ")"

/-- Freshly appended best-score row: team label, submitted case's cell set,
the other case's cell empty. -/
def mkScoreRow (label : String) (c : Case) (value : String) : ScoreRow :=
  setCell { team := label, case2 := "", case3 := "" } c value

/-- Row update of `_save_score`: the first row whose stripped team label
matches is updated (cell overwritten only when the new score strictly
exceeds the parsed existing one); with no match a new row is appended. -/
def saveScoreRows (label : String) (c : Case) (score : ℚ) (value : String) :
    List ScoreRow → List ScoreRow
  | [] => [mkScoreRow label c value]
  | r :: rs =>
    if strTrim r.team == label then
      (if score > parse_score_from_cell (getCell r c) then setCell r c value else r) :: rs
    else r :: saveScoreRows label c score value rs

/-- `_save_score`.  There is no try/except around its `pd.read_csv`
(`scoring.py` lines 130-135): an unreadable existing file propagates the
exception (modelled as `Except.error`), while a missing file or one with
missing required columns resets to the empty table and proceeds. -/
def save_score (team_id : ℤ) (c : Case) (score : ℚ) (submitted_at : String) :
    CsvFile ScoreRow → Except String (List ScoreRow)
  | .unreadable msg => .error msg
  | .absent =>
    .ok (saveScoreRows (teamLabel team_id) c score (scoreValue score submitted_at) [])
  | .wrongSchema =>
    .ok (saveScoreRows (teamLabel team_id) c score (scoreValue score submitted_at) [])
  | .table rows =>
    .ok (saveScoreRows (teamLabel team_id) c score (scoreValue score submitted_at) rows)

/-- pandas `df.tail(n)`: the last `n` rows in file order. -/
def tailN {α : Type} (n : ℕ) (l : List α) : List α := (l.reverse.take n).reverse

/-- `MAX_RECENT`. -/
def MAX_RECENT : ℕ := 10

/-- The row appended to `score_recent.csv` / `save_db.csv` (all four cells
present, the score rendered as Python renders the float). -/
def mkRecentRow (team_id : ℤ) (c : Case) (score : ℚ) (submitted_at : String) : RecentRow :=
  { team := some (teamLabel team_id), caseName := some (caseStr c),
    score := some (renderScore score), submitted_at := some submitted_at }

/-- `_append_recent`: reset to empty on a missing, unreadable (caught by its
try/except) or schema-mismatched file, append the new row, keep the last
`MAX_RECENT` rows. -/
def append_recent (team_id : ℤ) (c : Case) (score : ℚ) (submitted_at : String)
    (f : CsvFile RecentRow) : List RecentRow :=
  tailN MAX_RECENT (baseRows f ++ [mkRecentRow team_id c score submitted_at])

/-- `_append_save_db`: same reset semantics, appends, never truncates. -/
def append_save_db (team_id : ℤ) (c : Case) (score : ℚ) (submitted_at : String)
    (f : CsvFile RecentRow) : List RecentRow :=
  baseRows f ++ [mkRecentRow team_id c score submitted_at]

/-! ### run_scoring -/

/-- `run_scoring`: validate, score, persist to the three files.  The
top-level try/except is modelled by the error-message payloads of
`UploadData`/`AnswerFile` and by the `Except` result of `save_score`. -/
def run_scoring (uploaded_file : UploadData) (c : Case) (team_id : ℤ)
    (ans : AnswerFile) (now : String) (st : Ledger) : ScoringResult × Ledger :=
  match uploaded_file with
  | .unreadable msg => (⟨0, msg, .error⟩, st)
  | .noPredict => (⟨0, "제출 파일에 \x27predict\x27 컬럼이 없습니다.", .error⟩, st)
  | .badPredict msg => (⟨0, msg, .error⟩, st)
  | .predict pvals =>
    match ans with
    | .absent => (⟨0, "정답 파일이 없습니다: " ++ answerName c, .error⟩, st)
    | .unreadable msg => (⟨0, msg, .error⟩, st)
    | .noAnswerCol =>
      (⟨0, "정답 파일에 \x27answer\x27 컬럼이 없습니다: " ++ answerName c, .error⟩, st)
    | .badAnswer msg => (⟨0, msg, .error⟩, st)
    | .answers avals =>
      let min_len := min pvals.length avals.length
      if min_len = 0 then (⟨0, "예측 또는 정답 데이터가 비어 있습니다.", .error⟩, st)
      else
        let predict := pvals.take min_len
        let answer := avals.take min_len
        let acc := accuracy_score answer predict
        let score_100 := round2 (acc * 100)
        match save_score team_id c score_100 now st.saveScore with
        | .error e => (⟨0, e, .error⟩, st)
        | .ok rows =>
          ({ score := score_100,
             details := "Case: " ++ caseStr c ++ ", Team " ++ toString team_id ++
               ", accuracy(0~100): " ++ renderScore score_100 ++ ", 제출시각: " ++ now,
             status := .ok },
           { saveScore := .table rows,
             recent := .table (append_recent team_id c score_100 now st.recent),
             saveDb := .table (append_save_db team_id c score_100 now st.saveDb) })

/-! ### Scoreboard Reader -/

/-- One scoreboard entry `(team_id, case, score, details)`. -/
abbrev BoardEntry : Type := ℤ × Case × ℚ × String

/-- Python `str.endswith(suffix)`, written over the character lists so that
it evaluates inside the kernel. -/
def strEndsWith (s suffix : String) : Bool := suffix.data.isSuffixOf s.data

/-- Left-to-right non-overlapping removal of every occurrence of `pat`
(Python `str.replace(pat, "")` — the only replacement the module performs);
structurally recursive on a fuel argument so that it evaluates inside the
kernel. -/
def removeAllAux : ℕ → List Char → List Char → List Char
  | 0, _, _ => []
  | _ + 1, _, [] => []
  | fuel + 1, pat, c :: cs =>
    if pat ≠ [] ∧ pat.isPrefixOf (c :: cs) then
      removeAllAux fuel pat ((c :: cs).drop pat.length)
    else c :: removeAllAux fuel pat cs

/-- Python `s.replace(pat, "")` at the `String` level. -/
def strRemoveAll (s pat : String) : String :=
  String.mk (removeAllAux s.data.length pat.data s.data)

/-- Python `int(s)` on a stripped decimal string. -/
def digitsToNat (l : List Char) : Option ℕ :=
  if !l.isEmpty && l.all (fun c => c.isDigit) then some (natOfChars l) else none

/-- Python `int(s)`. -/
def parseIntStr (s : String) : Option ℤ :=
  match trimChars s.data with
  | '-' :: cs => (digitsToNat cs).map (fun n => -(n : ℤ))
  | '+' :: cs => (digitsToNat cs).map (fun n => (n : ℤ))
  | l => (digitsToNat l).map (fun n => (n : ℤ))

/-- Inner per-case step of the `load_scoreboard` loop: skip empty/NA cells
and cells parsing to a negative score, otherwise add a board entry.
(Python inserts into a dict keyed by `(team_id, case)`; the model records
the insertions in order.) -/
def cellEntry (acc : List BoardEntry) (team_id : ℤ) (c : Case) (r : ScoreRow) :
    List BoardEntry :=
  let cell := getCell r c
  if (trimChars cell.data).isEmpty then acc
  else
    let s := String.mk (trimChars cell.data)
    let sc := parse_score_from_cell cell
    if sc < 0 then acc
    else acc ++ [(team_id, c, sc, "최고점 기록: " ++ s)]

/-- Row loop of `load_scoreboard`: rows whose team label does not end in
`팀` are skipped; a team label whose numeric part `int()` cannot parse
raises, which the outer `except: pass` turns into returning the board
accumulated so far. -/
def loadBoardRows : List ScoreRow → List BoardEntry → List BoardEntry
  | [], acc => acc
  | r :: rs, acc =>
    let team_str := strTrim r.team
    if team_str == "" || !strEndsWith team_str "팀" then loadBoardRows rs acc
    else
      match parseIntStr (strRemoveAll team_str "팀") with
      | none => acc
      | some team_id =>
        loadBoardRows rs (cellEntry (cellEntry acc team_id .case2 r) team_id .case3 r)

/-- `load_scoreboard`: empty on a missing file, on a read error (caught) or
when the `team` column is missing. -/
def load_scoreboard : CsvFile ScoreRow → List BoardEntry
  | .table rows => loadBoardRows rows []
  | _ => []

/-- `load_recent_submissions`: empty on a missing/unreadable/mis-schemed
file; otherwise drop all-NA rows, keep the last `limit`, newest first. -/
def load_recent_submissions (f : CsvFile RecentRow) (limit : ℕ) : List RecentRow :=
  match f with
  | .table rows => (tailN limit (rows.filter (fun r => !rowAllNA r))).reverse
  | _ => []

/-! ### Derived views used to state the claims -/

/-- The stored best-score cell for `(label, c)`: the `c`-cell of the first
row whose stripped team label matches (the row `_save_score` reads and
updates), `""` when no row matches. -/
def bestCell (label : String) (c : Case) : List ScoreRow → String
  | [] => ""
  | r :: rs => if strTrim r.team == label then getCell r c else bestCell label c rs

/-- The payload of one successful scoring call as seen by the recent/audit
writers. -/
structure RecEvent where
  tid : ℤ
  c : Case
  score : ℚ
  ts : String

/-- The row a successful scoring call appends. -/
def eventRow (e : RecEvent) : RecentRow := mkRecentRow e.tid e.c e.score e.ts

/-- Recency-log file after a sequence of successful scoring calls. -/
def recentAfter (es : List RecEvent) (f : CsvFile RecentRow) : CsvFile RecentRow :=
  es.foldl (fun acc e => .table (append_recent e.tid e.c e.score e.ts acc)) f

/-- Audit-log file after a sequence of successful scoring calls. -/
def dbAfter (es : List RecEvent) (f : CsvFile RecentRow) : CsvFile RecentRow :=
  es.foldl (fun acc e => .table (append_save_db e.tid e.c e.score e.ts acc)) f

/-! ### Helper lemmas: characters, digit strings, rendering -/

lemma dropWhile_eq_self_of_head (p : Char → Bool) (x : Char) (xs : List Char)
    (h : p x = false) : (x :: xs).dropWhile p = x :: xs := by
  simp [List.dropWhile_cons, h]

lemma takeWhile_append_of_forall (p : Char → Bool) (A l : List Char)
    (h : ∀ a ∈ A, p a = true) : (A ++ l).takeWhile p = A ++ l.takeWhile p := by
  induction A with
  | nil => simp
  | cons a A ih =>
    have ha : p a = true := h a (List.mem_cons_self a A)
    simp only [List.cons_append, List.takeWhile_cons, ha, if_true]
    rw [ih (fun x hx => h x (List.mem_cons_of_mem a hx))]

lemma dropWhile_append_of_forall (p : Char → Bool) (A l : List Char)
    (h : ∀ a ∈ A, p a = true) : (A ++ l).dropWhile p = l.dropWhile p := by
  induction A with
  | nil => simp
  | cons a A ih =>
    have ha : p a = true := h a (List.mem_cons_self a A)
    simp only [List.cons_append, List.dropWhile_cons, ha, if_true]
    exact ih (fun x hx => h x (List.mem_cons_of_mem a hx))

/-- Basic facts about the 11 characters a rendered score is made of. -/
lemma digitChar_facts (d : ℕ) (hd : d < 10) :
    (digitChar d).isDigit = true ∧ digitVal (digitChar d) = d ∧
    wsp (digitChar d) = false ∧ ((digitChar d) != '(') = true ∧
    digitChar d ≠ '-' ∧ digitChar d ≠ '+' := by
  interval_cases d <;> exact ⟨rfl, rfl, rfl, rfl, by decide, by decide⟩

lemma dot_facts : ('.').isDigit = false ∧ wsp '.' = false ∧ (('.') != '(') = true ∧
    ('.') ≠ '-' ∧ ('.') ≠ '+' := by decide

lemma natCharsAux_zero (fuel : ℕ) : natCharsAux fuel 0 = [] := by
  cases fuel <;> rfl

/-- With enough fuel, `natCharsAux` computes the base-10 digits. -/
lemma natCharsAux_eq_digits :
    ∀ fuel n : ℕ, n ≠ 0 → n ≤ fuel →
      natCharsAux fuel n = (Nat.digits 10 n).reverse.map digitChar := by
  intro fuel
  induction fuel with
  | zero => intro n h0 hle; omega
  | succ fuel ih =>
    intro n h0 hle
    obtain ⟨k, rfl⟩ := Nat.exists_eq_succ_of_ne_zero h0
    rw [natCharsAux, Nat.digits_def' (by norm_num : 1 < 10) (Nat.succ_pos k)]
    rw [List.reverse_cons, List.map_append]
    by_cases hq : (k + 1) / 10 = 0
    · rw [hq, natCharsAux_zero]
      simp
    · rw [ih _ hq (by
        have := Nat.div_lt_self (Nat.succ_pos k) (by norm_num : 1 < 10)
        omega)]
      rfl

/-- `natChars` agrees with the base-10 digits of `m`. -/
lemma natChars_eq_digits (m : ℕ) :
    natChars m = if m = 0 then [digitChar 0]
      else (Nat.digits 10 m).reverse.map digitChar := by
  unfold natChars
  by_cases hm : m = 0
  · simp [hm]
  · rw [if_neg hm, if_neg hm, natCharsAux_eq_digits m m hm le_rfl]

/-- Every character of `natChars m` is a digit character. -/
lemma natChars_mem (m : ℕ) : ∀ c ∈ natChars m, ∃ d, d < 10 ∧ c = digitChar d := by
  intro c hc
  rw [natChars_eq_digits] at hc
  by_cases hm : m = 0
  · simp [hm] at hc
    exact ⟨0, by norm_num, hc⟩
  · simp only [hm, if_false, List.mem_map, List.mem_reverse] at hc
    obtain ⟨d, hd, rfl⟩ := hc
    exact ⟨d, Nat.digits_lt_base (by norm_num) hd, rfl⟩

/-- Every character of `fracChars f` (for `f < 100`) is a digit character. -/
lemma fracChars_mem (f : ℕ) (hf : f < 100) :
    ∀ c ∈ fracChars f, ∃ d, d < 10 ∧ c = digitChar d := by
  intro c hc
  unfold fracChars at hc
  split_ifs at hc with h0 h10
  · simp at hc; exact ⟨0, by norm_num, hc⟩
  · simp at hc
    exact ⟨f / 10, by omega, hc⟩
  · simp only [List.mem_cons, List.not_mem_nil, or_false] at hc
    rcases hc with hc | hc
    · exact ⟨f / 10, by omega, hc⟩
    · exact ⟨f % 10, Nat.mod_lt _ (by norm_num), hc⟩

lemma natChars_ne_nil (m : ℕ) : natChars m ≠ [] := by
  rw [natChars_eq_digits]
  by_cases hm : m = 0
  · simp [hm]
  · simp only [hm, if_false, ne_eq, List.map_eq_nil_iff, List.reverse_eq_nil_iff]
    exact Nat.digits_ne_nil_iff_ne_zero.mpr hm

/-- Value of a mapped digit list under the big-endian fold. -/
lemma natOfChars_map_digitChar (l : List ℕ) (h : ∀ d ∈ l, d < 10) :
    ∀ acc : ℕ, (l.map digitChar).foldl (fun a c => 10 * a + digitVal c) acc
      = l.foldl (fun a d => 10 * a + d) acc := by
  induction l with
  | nil => intro acc; rfl
  | cons d l ih =>
    intro acc
    have hd : d < 10 := h d (List.mem_cons_self d l)
    have hv := (digitChar_facts d hd).2.1
    simp only [List.map_cons, List.foldl_cons, hv]
    exact ih (fun x hx => h x (List.mem_cons_of_mem d hx)) _

/-- Folding a little-endian digit list from its most significant end
computes the `Nat.ofDigits` value. -/
lemma foldl_reverse_digits (l : List ℕ) :
    ∀ acc : ℕ, l.reverse.foldl (fun a d => 10 * a + d) acc
      = acc * 10 ^ l.length + Nat.ofDigits 10 l := by
  induction l with
  | nil => intro acc; simp
  | cons d l ih =>
    intro acc
    simp only [List.reverse_cons, List.foldl_append, List.foldl_cons, List.foldl_nil,
      ih acc, List.length_cons, Nat.ofDigits_cons]
    ring

/-- Parsing the decimal rendering of `m` recovers `m`. -/
lemma natOfChars_natChars (m : ℕ) : natOfChars (natChars m) = m := by
  rw [natChars_eq_digits]
  unfold natOfChars
  by_cases hm : m = 0
  · simp [hm, digitChar, digitVal]
  · simp only [hm, if_false]
    rw [natOfChars_map_digitChar _ (fun d hd =>
      Nat.digits_lt_base (by norm_num) (List.mem_reverse.mp hd)) 0]
    rw [foldl_reverse_digits]
    simp [Nat.ofDigits_digits]

lemma trimChars_eq_self_of_forall (l : List Char) (h : ∀ c ∈ l, wsp c = false) :
    trimChars l = l := by
  unfold trimChars
  have h1 : l.dropWhile wsp = l := by
    cases l with
    | nil => rfl
    | cons x xs => exact dropWhile_eq_self_of_head _ _ _ (h x (List.mem_cons_self x xs))
  rw [h1]
  have h2 : l.reverse.dropWhile wsp = l.reverse := by
    cases hr : l.reverse with
    | nil => rfl
    | cons y ys =>
      refine dropWhile_eq_self_of_head _ _ _ (h y ?_)
      rw [← List.mem_reverse, hr]
      exact List.mem_cons_self y ys
  rw [h2, List.reverse_reverse]

lemma trimChars_eq_self_of_ends (l : List Char) (x y : Char) (xs ys : List Char)
    (hx : l = x :: xs) (hy : l.reverse = y :: ys)
    (hwx : wsp x = false) (hwy : wsp y = false) : trimChars l = l := by
  unfold trimChars
  conv_lhs => rw [hx, dropWhile_eq_self_of_head _ _ _ hwx, ← hx, hy,
    dropWhile_eq_self_of_head _ _ _ hwy, ← hy, List.reverse_reverse]

/-- The first character of `renderCenti m` is a digit character. -/
lemma renderCenti_head (m : ℕ) :
    ∃ d rest, d < 10 ∧ renderCenti m = digitChar d :: rest := by
  obtain ⟨x, xs, hx⟩ := List.exists_cons_of_ne_nil (natChars_ne_nil (m / 100))
  obtain ⟨d, hd, rfl⟩ := natChars_mem (m / 100) x (by rw [hx]; exact List.mem_cons_self x xs)
  exact ⟨d, xs ++ '.' :: fracChars (m % 100), hd, by rw [renderCenti, hx]; rfl⟩

/-- Every character of `renderCenti m` is a digit or the decimal dot. -/
lemma renderCenti_mem (m : ℕ) :
    ∀ c ∈ renderCenti m, c = '.' ∨ ∃ d, d < 10 ∧ c = digitChar d := by
  intro c hc
  rw [renderCenti, List.mem_append, List.mem_cons] at hc
  rcases hc with hc | hc | hc
  · exact Or.inr (natChars_mem _ c hc)
  · exact Or.inl hc
  · exact Or.inr (fracChars_mem _ (Nat.mod_lt _ (by norm_num)) c hc)

lemma renderCenti_digit_or_dot (m : ℕ) :
    (∀ c ∈ renderCenti m, wsp c = false) ∧ (∀ c ∈ renderCenti m, (c != '(') = true) := by
  constructor <;> intro c hc <;> rcases renderCenti_mem m c hc with rfl | ⟨d, hd, rfl⟩
  · exact dot_facts.2.1
  · exact (digitChar_facts d hd).2.2.1
  · exact dot_facts.2.2.1
  · exact (digitChar_facts d hd).2.2.2.1

/-- `floatOfCharsNN` on a digits-dot-digits list. -/
lemma floatOfCharsNN_eq (A F : List Char) (hA : ∀ a ∈ A, a.isDigit = true)
    (hA0 : A ≠ []) (hF : ∀ a ∈ F, a.isDigit = true) :
    floatOfCharsNN (A ++ '.' :: F)
      = some ((natOfChars A : ℚ) + (natOfChars F : ℚ) / 10 ^ F.length) := by
  have h1 : (A ++ '.' :: F).takeWhile (fun c => c.isDigit) = A := by
    rw [takeWhile_append_of_forall _ _ _ hA]
    simp [List.takeWhile_cons, dot_facts.1]
  have h2 : (A ++ '.' :: F).dropWhile (fun c => c.isDigit) = '.' :: F := by
    rw [dropWhile_append_of_forall _ _ _ hA]
    simp [List.dropWhile_cons, dot_facts.1]
  simp only [floatOfCharsNN, h1, h2, if_pos rfl]
  have hall : F.all (fun c => c.isDigit) = true := List.all_eq_true.mpr hF
  have hne : A.isEmpty = false := by
    cases A with
    | nil => exact absurd rfl hA0
    | cons a as => rfl
  simp [hall, hne]

/-- Value of the rendered fractional part. -/
lemma fracChars_val (f : ℕ) (hf : f < 100) :
    (natOfChars (fracChars f) : ℚ) / 10 ^ (fracChars f).length = (f : ℚ) / 100 := by
  unfold fracChars
  split_ifs with h0 h10
  · subst h0
    simp [natOfChars, digitVal, digitChar]
  · have hd : digitVal (digitChar (f / 10)) = f / 10 := (digitChar_facts _ (by omega)).2.1
    have hfe : 10 * (f / 10) = f := Nat.mul_div_cancel' (Nat.dvd_of_mod_eq_zero h10)
    have hq : (10 : ℚ) * ((f / 10 : ℕ) : ℚ) = (f : ℚ) := by
      have := congrArg (fun n : ℕ => (n : ℚ)) hfe
      push_cast at this
      exact this
    simp only [natOfChars, List.foldl_cons, List.foldl_nil, List.length_cons,
      List.length_nil, hd]
    push_cast
    rw [zero_add, pow_one]
    rw [div_eq_div_iff (by norm_num) (by norm_num)]
    linarith [hq]
  · have hd1 : digitVal (digitChar (f / 10)) = f / 10 := (digitChar_facts _ (by omega)).2.1
    have hd2 : digitVal (digitChar (f % 10)) = f % 10 :=
      (digitChar_facts _ (Nat.mod_lt _ (by norm_num))).2.1
    have hfe : 10 * (f / 10) + f % 10 = f := Nat.div_add_mod f 10
    have hq : (10 : ℚ) * ((f / 10 : ℕ) : ℚ) + ((f % 10 : ℕ) : ℚ) = (f : ℚ) := by
      have := congrArg (fun n : ℕ => (n : ℚ)) hfe
      push_cast at this
      exact this
    simp only [natOfChars, List.foldl_cons, List.foldl_nil, List.length_cons,
      List.length_nil, hd1, hd2]
    push_cast
    rw [zero_add]
    rw [div_eq_div_iff (by positivity) (by norm_num)]
    have : (10 : ℚ) ^ 2 = 100 := by norm_num
    rw [this]
    linarith [hq]

/-- Parsing the rendering of the centi-score `m` yields `m / 100`. -/
lemma floatOfCharsNN_renderCenti (m : ℕ) :
    floatOfCharsNN (renderCenti m) = some ((m : ℚ) / 100) := by
  have hA : ∀ a ∈ natChars (m / 100), a.isDigit = true := by
    intro a ha
    obtain ⟨d, hd, rfl⟩ := natChars_mem _ a ha
    exact (digitChar_facts d hd).1
  have hF : ∀ a ∈ fracChars (m % 100), a.isDigit = true := by
    intro a ha
    obtain ⟨d, hd, rfl⟩ := fracChars_mem _ (Nat.mod_lt _ (by norm_num)) a ha
    exact (digitChar_facts d hd).1
  rw [renderCenti, floatOfCharsNN_eq _ _ hA (natChars_ne_nil _) hF,
    natOfChars_natChars, fracChars_val _ (Nat.mod_lt _ (by norm_num))]
  have hm : (100 : ℚ) * ((m / 100 : ℕ) : ℚ) + ((m % 100 : ℕ) : ℚ) = (m : ℚ) := by
    exact_mod_cast congrArg Nat.cast (Nat.div_add_mod m 100)
  push_cast at hm ⊢
  field_simp
  linarith [hm]

/-- `floatOfChars` agrees with the unsigned parser on a rendered score. -/
lemma floatOfChars_renderCenti (m : ℕ) :
    floatOfChars (renderCenti m) = some ((m : ℚ) / 100) := by
  obtain ⟨d, rest, hd, hR⟩ := renderCenti_head m
  rw [hR]
  simp only [floatOfChars, if_neg (digitChar_facts d hd).2.2.2.2.1,
    if_neg (digitChar_facts d hd).2.2.2.2.2]
  rw [← hR, floatOfCharsNN_renderCenti]

/-- Rendering the score `n / 100`. -/
lemma renderScore_div100 (n : ℕ) :
    renderScore ((n : ℚ) / 100) = String.mk (renderCenti n) := by
  have hq : ((n : ℚ) / 100) * 100 = (n : ℚ) := div_mul_cancel₀ _ (by norm_num)
  unfold renderScore
  rw [hq, if_pos ⟨Rat.den_natCast n, by positivity⟩]
  simp [Rat.num_natCast]

/-- Character data of the composite cell value for the score `n / 100`. -/
lemma scoreValue_data (n : ℕ) (ts : String) :
    (scoreValue ((n : ℚ) / 100) ts).data = renderCenti n ++ '(' :: (ts.data ++ [')']) := by
  unfold scoreValue
  rw [renderScore_div100]
  have h : (String.mk (renderCenti n) ++ "(" ++ ts ++ ")").data
      = renderCenti n ++ ['('] ++ ts.data ++ [')'] := by
    simp only [String.data_append]
  rw [h]
  simp

/-- Round trip of the composite cell format: a cell written as
`f"{score}({timestamp})"` parses back to the score, for every score the
program can produce and every timestamp string. -/
lemma parse_scoreValue (n : ℕ) (ts : String) :
    parse_score_from_cell (scoreValue ((n : ℚ) / 100) ts) = (n : ℚ) / 100 := by
  obtain ⟨d, rest, hd, hR⟩ := renderCenti_head n
  have hdata := scoreValue_data n ts
  have hcons : renderCenti n ++ '(' :: (ts.data ++ [')'])
      = digitChar d :: (rest ++ '(' :: (ts.data ++ [')'])) := by rw [hR]; rfl
  have hrev : (renderCenti n ++ '(' :: (ts.data ++ [')'])).reverse
      = ')' :: ((renderCenti n ++ '(' :: ts.data).reverse) := by
    have : renderCenti n ++ '(' :: (ts.data ++ [')'])
        = (renderCenti n ++ '(' :: ts.data) ++ [')'] := by simp
    rw [this, List.reverse_append]
    rfl
  have htrim : trimChars (renderCenti n ++ '(' :: (ts.data ++ [')']))
      = renderCenti n ++ '(' :: (ts.data ++ [')']) := by
    refine trimChars_eq_self_of_ends _ (digitChar d) ')' _ _ hcons hrev ?_ ?_
    · exact (digitChar_facts d hd).2.2.1
    · decide
  have htake : (renderCenti n ++ '(' :: (ts.data ++ [')'])).takeWhile (fun c => c != '(')
      = renderCenti n := by
    rw [takeWhile_append_of_forall _ _ _ (renderCenti_digit_or_dot n).2]
    simp [List.takeWhile_cons]
  have hpre : trimChars (renderCenti n) = renderCenti n :=
    trimChars_eq_self_of_forall _ (renderCenti_digit_or_dot n).1
  simp only [parse_score_from_cell, hdata, htrim, htake, hpre, floatOfChars_renderCenti]
  rw [hcons]
  simp

/-! ### Helper lemmas: rounding bounds, tail of a list -/

lemma floor_le_roundHalfEven (q : ℚ) : ⌊q⌋ ≤ roundHalfEven q := by
  simp only [roundHalfEven]
  split_ifs <;> omega

lemma roundHalfEven_le_ceil (q : ℚ) : roundHalfEven q ≤ ⌈q⌉ := by
  simp only [roundHalfEven]
  split_ifs with h1 h2 h3
  · exact Int.floor_le_ceil q
  · push_neg at h1
    have := Int.lt_ceil.mpr (show ((⌊q⌋ : ℚ)) < q by linarith)
    omega
  · exact Int.floor_le_ceil q
  · push_neg at h1
    have := Int.lt_ceil.mpr (show ((⌊q⌋ : ℚ)) < q by linarith)
    omega

lemma roundHalfEven_nonneg (q : ℚ) (h : 0 ≤ q) : 0 ≤ roundHalfEven q :=
  le_trans (Int.floor_nonneg.mpr h) (floor_le_roundHalfEven q)

lemma roundHalfEven_le_of_le (q : ℚ) (N : ℤ) (h : q ≤ (N : ℚ)) : roundHalfEven q ≤ N :=
  le_trans (roundHalfEven_le_ceil q) (Int.ceil_le.mpr h)

lemma round2_nonneg (x : ℚ) (h : 0 ≤ x) : 0 ≤ round2 x := by
  unfold round2
  have := roundHalfEven_nonneg (x * 100) (by positivity)
  positivity

lemma round2_le_100 (x : ℚ) (h : x ≤ 100) : round2 x ≤ 100 := by
  unfold round2
  have h1 : roundHalfEven (x * 100) ≤ 10000 :=
    roundHalfEven_le_of_le _ 10000 (by push_cast; linarith)
  have h2 : ((roundHalfEven (x * 100) : ℚ)) ≤ 10000 := by exact_mod_cast h1
  linarith

lemma tailN_length {α : Type} (n : ℕ) (l : List α) :
    (tailN n l).length = min l.length n := by
  simp [tailN, Nat.min_comm]

lemma tailN_nil {α : Type} (n : ℕ) : tailN n ([] : List α) = [] := by simp [tailN]

lemma tailN_eq_self_of_le {α : Type} (n : ℕ) (l : List α) (h : l.length ≤ n) :
    tailN n l = l := by
  unfold tailN
  rw [List.take_of_length_le (by simpa using h), List.reverse_reverse]

lemma take_append_take {α : Type} (A B : List α) :
    ∀ n m : ℕ, n ≤ m → (A ++ B.take m).take n = (A ++ B).take n := by
  induction A with
  | nil =>
    intro n m hnm
    simp [List.take_take, Nat.min_eq_left hnm]
  | cons a A ih =>
    intro n m hnm
    cases n with
    | zero => simp
    | succ k =>
      simp only [List.cons_append, List.take_succ_cons]
      rw [ih k m (le_trans (Nat.le_succ k) hnm)]

lemma tailN_tailN_append {α : Type} (n : ℕ) (L M : List α) :
    tailN n (tailN n L ++ M) = tailN n (L ++ M) := by
  unfold tailN
  rw [List.reverse_append, List.reverse_reverse, List.reverse_append,
    take_append_take _ _ n n le_rfl]

lemma tailN_reverse {α : Type} (n : ℕ) (l : List α) :
    (tailN n l).reverse = l.reverse.take n := by
  simp [tailN]

lemma tailN_subset {α : Type} (n : ℕ) (l : List α) : tailN n l ⊆ l := by
  intro x hx
  rw [tailN, List.mem_reverse] at hx
  exact List.mem_reverse.mp (List.take_subset n l.reverse hx)

/-! ### Helper lemmas: best-score rows -/

lemma getCell_setCell_same (r : ScoreRow) (c : Case) (v : String) :
    getCell (setCell r c v) c = v := by cases c <;> rfl

lemma getCell_setCell_other (r : ScoreRow) (c : Case) (v : String) :
    getCell (setCell r c v) (otherCase c) = getCell r (otherCase c) := by cases c <;> rfl

lemma setCell_team (r : ScoreRow) (c : Case) (v : String) :
    (setCell r c v).team = r.team := by cases c <;> rfl

lemma getCell_mkScoreRow_same (label : String) (c : Case) (v : String) :
    getCell (mkScoreRow label c v) c = v := by cases c <;> rfl

lemma getCell_mkScoreRow_other (label : String) (c : Case) (v : String) :
    getCell (mkScoreRow label c v) (otherCase c) = "" := by cases c <;> rfl

lemma mkScoreRow_team (label : String) (c : Case) (v : String) :
    (mkScoreRow label c v).team = label := by cases c <;> rfl

lemma parse_empty_cell : parse_score_from_cell "" = -1 := rfl

/-- Core behaviour of the `_save_score` row update on the cell it owns:
kept verbatim when the new score does not exceed the parsed existing one,
overwritten with the fresh composite value when it does. -/
lemma saveScoreRows_bestCell (label : String) (hl : strTrim label = label) (c : Case)
    (score : ℚ) (value : String) (hscore : -1 < score) (rs : List ScoreRow) :
    (score ≤ parse_score_from_cell (bestCell label c rs) →
      bestCell label c (saveScoreRows label c score value rs) = bestCell label c rs) ∧
    (parse_score_from_cell (bestCell label c rs) < score →
      bestCell label c (saveScoreRows label c score value rs) = value) := by
  induction rs with
  | nil =>
    have hb : bestCell label c [mkScoreRow label c value] = value := by
      rw [bestCell, mkScoreRow_team, hl]
      simp [getCell_mkScoreRow_same]
    constructor
    · intro hle
      rw [bestCell, parse_empty_cell] at hle
      exact absurd hle (not_le.mpr hscore)
    · intro _
      exact hb
  | cons r rs ih =>
    by_cases hr : (strTrim r.team == label) = true
    · have hbc : bestCell label c (r :: rs) = getCell r c := by rw [bestCell, if_pos hr]
      constructor
      · intro hle
        rw [hbc] at hle
        rw [saveScoreRows, if_pos hr, if_neg (not_lt.mpr hle), bestCell, if_pos hr]
      · intro hlt
        rw [hbc] at hlt
        rw [saveScoreRows, if_pos hr, if_pos hlt, bestCell]
        rw [if_pos (by rw [setCell_team]; exact hr)]
        exact getCell_setCell_same r c value
    · have hr' : (strTrim r.team == label) = false := by
        simpa using hr
      have hbc : bestCell label c (r :: rs) = bestCell label c rs := by
        rw [bestCell, if_neg (by simp [hr'])]
      have hout : bestCell label c (saveScoreRows label c score value (r :: rs))
          = bestCell label c (saveScoreRows label c score value rs) := by
        rw [saveScoreRows, if_neg (by simp [hr']), bestCell, if_neg (by simp [hr'])]
      rw [hbc, hout]
      exact ih

/-! ### Helper lemmas: recency / audit log folds -/

lemma recentAfter_cons (e : RecEvent) (es : List RecEvent) (f : CsvFile RecentRow) :
    recentAfter (e :: es) f
      = recentAfter es (.table (append_recent e.tid e.c e.score e.ts f)) := rfl

lemma dbAfter_cons (e : RecEvent) (es : List RecEvent) (f : CsvFile RecentRow) :
    dbAfter (e :: es) f
      = dbAfter es (.table (append_save_db e.tid e.c e.score e.ts f)) := rfl

lemma append_recent_table (e : RecEvent) (rows : List RecentRow) :
    append_recent e.tid e.c e.score e.ts (.table rows)
      = tailN 10 (rows ++ [eventRow e]) := rfl

lemma recentAfter_table (es : List RecEvent) :
    ∀ rows0 : List RecentRow, rows0.length ≤ 10 →
      recentAfter es (.table rows0) = .table (tailN 10 (rows0 ++ es.map eventRow)) := by
  induction es with
  | nil =>
    intro rows0 h
    simp only [recentAfter, List.foldl_nil, List.map_nil, List.append_nil]
    rw [tailN_eq_self_of_le 10 rows0 h]
  | cons e es ih =>
    intro rows0 h
    rw [recentAfter_cons, append_recent_table]
    rw [ih _ (by rw [tailN_length]; omega)]
    rw [tailN_tailN_append]
    simp [List.append_assoc]

lemma recentAfter_baseRows (es : List RecEvent) :
    baseRows (recentAfter es .absent) = tailN 10 (es.map eventRow) ∧
    baseRows (recentAfter es (.table [])) = tailN 10 (es.map eventRow) := by
  cases es with
  | nil =>
    constructor <;> simp [recentAfter, baseRows, tailN]
  | cons e es =>
    have habs : recentAfter (e :: es) .absent = recentAfter (e :: es) (.table []) := rfl
    rw [habs, recentAfter_table (e :: es) [] (by simp)]
    simp [baseRows]

lemma dbAfter_table (es : List RecEvent) :
    ∀ rows0 : List RecentRow,
      dbAfter es (.table rows0) = .table (rows0 ++ es.map eventRow) := by
  induction es with
  | nil =>
    intro rows0
    simp [dbAfter]
  | cons e es ih =>
    intro rows0
    rw [dbAfter_cons]
    have : append_save_db e.tid e.c e.score e.ts (.table rows0) = rows0 ++ [eventRow e] := rfl
    rw [this, ih]
    simp [List.append_assoc]

lemma dbAfter_baseRows (es : List RecEvent) :
    baseRows (dbAfter es .absent) = es.map eventRow ∧
    baseRows (dbAfter es (.table [])) = es.map eventRow := by
  cases es with
  | nil => constructor <;> rfl
  | cons e es =>
    have habs : dbAfter (e :: es) .absent = dbAfter (e :: es) (.table []) := rfl
    rw [habs, dbAfter_table (e :: es) []]
    simp [baseRows]

lemma rowAllNA_eventRow (e : RecEvent) : rowAllNA (eventRow e) = false := rfl

/-! ### Helper lemmas: accuracy bounds -/

lemma countEq_le_length (a b : List ℤ) : countEq a b ≤ a.length := by
  refine le_trans (List.countP_le_length _) ?_
  simp [List.length_zip]

lemma accuracy_score_nonneg (a b : List ℤ) : 0 ≤ accuracy_score a b := by
  unfold accuracy_score
  positivity

lemma accuracy_score_le_one (a b : List ℤ) : accuracy_score a b ≤ 1 := by
  unfold accuracy_score
  rcases Nat.eq_zero_or_pos a.length with h | h
  · simp [h]
  · rw [div_le_one (by exact_mod_cast h)]
    exact_mod_cast countEq_le_length a b

/-! ### Auxiliary evaluation lemmas for concrete examples -/

lemma roundHalfEven_intCast (z : ℤ) : roundHalfEven ((z : ℚ)) = z := by
  simp only [roundHalfEven, Int.floor_intCast]
  rw [if_pos (by norm_num)]

lemma parse_70cell : parse_score_from_cell "70.0(2025-02-03 14:30:00)" = 70 := by
  have h1 : parse_score_from_cell "70.0(2025-02-03 14:30:00)"
      = ((natOfChars ['7', '0'] : ℚ) + (natOfChars ['0'] : ℚ) / 10 ^ 1) := rfl
  rw [h1, (by decide : natOfChars ['7', '0'] = 70), (by decide : natOfChars ['0'] = 0)]
  norm_num

lemma parse_70t : parse_score_from_cell "70.0(t)" = 70 := by
  have h1 : parse_score_from_cell "70.0(t)"
      = ((natOfChars ['7', '0'] : ℚ) + (natOfChars ['0'] : ℚ) / 10 ^ 1) := rfl
  rw [h1, (by decide : natOfChars ['7', '0'] = 70), (by decide : natOfChars ['0'] = 0)]
  norm_num

lemma scoreValue_70 : scoreValue 70 "2025-02-03 14:30:00" = "70.0(2025-02-03 14:30:00)" := by
  have h : (70 : ℚ) = ((7000 : ℕ) : ℚ) / 100 := by norm_num
  rw [h, scoreValue, renderScore_div100]
  decide

lemma scoreValue_85 : scoreValue 85 "2025-02-03 15:00:00" = "85.0(2025-02-03 15:00:00)" := by
  have h : (85 : ℚ) = ((8500 : ℕ) : ℚ) / 100 := by norm_num
  rw [h, scoreValue, renderScore_div100]
  decide

/-! ### Claim theorems -/

/-- C9: a best-score cell written in the composite format
`"{score}({timestamp})"` parses back to the original score via the
numeric-prefix-before-parenthesis rule, for every score the scorer can
produce (a nonnegative two-decimal rational `n / 100`) and every timestamp
string; concretely `"85.5(2025-02-03 14:30:00)"` parses back to `85.5`. -/
theorem C9_cell_format_round_trip :
    (∀ (n : ℕ) (ts : String),
      parse_score_from_cell (scoreValue ((n : ℚ) / 100) ts) = (n : ℚ) / 100) ∧
    parse_score_from_cell "85.5(2025-02-03 14:30:00)" = 855 / 10 := by
  refine ⟨fun n ts => parse_scoreValue n ts, ?_⟩
  have h1 : parse_score_from_cell "85.5(2025-02-03 14:30:00)"
      = ((natOfChars ['8', '5'] : ℚ) + (natOfChars ['5'] : ℚ) / 10 ^ 1) := rfl
  rw [h1, (by decide : natOfChars ['8', '5'] = 85), (by decide : natOfChars ['5'] = 5)]
  norm_num

/-- C1: the `_save_score` update overwrites the stored `(team, case)` cell
only when the new score strictly exceeds the score parsed from the existing
cell (an absent row / empty cell parses to `-1` and is always written), so
the parsed stored best never decreases: after the update it equals
`max (old parsed value) (new score)`.  Concretely, submitting `70.0` then
`65.0` for team 3 / case2 leaves the cell at `70.0(...)`, while `70.0` then
`85.0` updates it to `85.0(...)`. -/
theorem C1_best_score_monotonic_max :
    (∀ (label : String), strTrim label = label → ∀ (c : Case) (n : ℕ) (ts : String)
      (rs : List ScoreRow),
      ((n : ℚ) / 100 ≤ parse_score_from_cell (bestCell label c rs) →
        bestCell label c (saveScoreRows label c ((n : ℚ) / 100)
          (scoreValue ((n : ℚ) / 100) ts) rs) = bestCell label c rs) ∧
      (parse_score_from_cell (bestCell label c rs) < (n : ℚ) / 100 →
        bestCell label c (saveScoreRows label c ((n : ℚ) / 100)
          (scoreValue ((n : ℚ) / 100) ts) rs) = scoreValue ((n : ℚ) / 100) ts) ∧
      parse_score_from_cell (bestCell label c (saveScoreRows label c ((n : ℚ) / 100)
          (scoreValue ((n : ℚ) / 100) ts) rs))
        = max (parse_score_from_cell (bestCell label c rs)) ((n : ℚ) / 100)) ∧
    bestCell "3팀" Case.case2
      (saveScoreRows "3팀" Case.case2 65 (scoreValue 65 "2025-02-03 15:00:00")
        (saveScoreRows "3팀" Case.case2 70 (scoreValue 70 "2025-02-03 14:30:00") []))
      = "70.0(2025-02-03 14:30:00)" ∧
    bestCell "3팀" Case.case2
      (saveScoreRows "3팀" Case.case2 85 (scoreValue 85 "2025-02-03 15:00:00")
        (saveScoreRows "3팀" Case.case2 70 (scoreValue 70 "2025-02-03 14:30:00") []))
      = "85.0(2025-02-03 15:00:00)" := by
  refine ⟨?_, ?_, ?_⟩
  · intro label hl c n ts rs
    have hscore : (-1 : ℚ) < (n : ℚ) / 100 := by
      have h0 : (0 : ℚ) ≤ (n : ℚ) / 100 := by positivity
      linarith
    have h := saveScoreRows_bestCell label hl c ((n : ℚ) / 100)
      (scoreValue ((n : ℚ) / 100) ts) hscore rs
    refine ⟨h.1, h.2, ?_⟩
    rcases le_or_lt ((n : ℚ) / 100) (parse_score_from_cell (bestCell label c rs)) with hle | hlt
    · rw [h.1 hle, max_eq_left hle]
    · rw [h.2 hlt, parse_scoreValue, max_eq_right (le_of_lt hlt)]
  · have hstep1 : saveScoreRows "3팀" Case.case2 70 (scoreValue 70 "2025-02-03 14:30:00") []
        = [{ team := "3팀", case2 := "70.0(2025-02-03 14:30:00)", case3 := "" }] := by
      rw [scoreValue_70]
      rfl
    rw [hstep1, saveScoreRows, if_pos (by decide)]
    rw [if_neg (by
      show ¬ ((65 : ℚ) > parse_score_from_cell (getCell
        { team := "3팀", case2 := "70.0(2025-02-03 14:30:00)", case3 := "" } Case.case2))
      have hg : getCell { team := "3팀", case2 := "70.0(2025-02-03 14:30:00)", case3 := "" }
          Case.case2 = "70.0(2025-02-03 14:30:00)" := rfl
      rw [hg, parse_70cell]
      norm_num)]
    rw [bestCell, if_pos (by decide)]
    rfl
  · have hstep1 : saveScoreRows "3팀" Case.case2 70 (scoreValue 70 "2025-02-03 14:30:00") []
        = [{ team := "3팀", case2 := "70.0(2025-02-03 14:30:00)", case3 := "" }] := by
      rw [scoreValue_70]
      rfl
    rw [hstep1, saveScoreRows, if_pos (by decide)]
    rw [if_pos (by
      show (85 : ℚ) > parse_score_from_cell (getCell
        { team := "3팀", case2 := "70.0(2025-02-03 14:30:00)", case3 := "" } Case.case2)
      have hg : getCell { team := "3팀", case2 := "70.0(2025-02-03 14:30:00)", case3 := "" }
          Case.case2 = "70.0(2025-02-03 14:30:00)" := rfl
      rw [hg, parse_70cell]
      norm_num)]
    rw [bestCell, if_pos (by decide), scoreValue_85]
    rfl

/-- Witness for C1: with an existing cell parsing to `70`, submitting `65`
(i.e. `6500 / 100`) leaves the stored cell unchanged. -/
theorem C1_best_score_monotonic_max_witness :
    bestCell "3팀" Case.case2
      (saveScoreRows "3팀" Case.case2 (((6500 : ℕ) : ℚ) / 100)
        (scoreValue (((6500 : ℕ) : ℚ) / 100) "x")
        [{ team := "3팀", case2 := "70.0(2025-02-03 14:30:00)", case3 := "" }])
      = bestCell "3팀" Case.case2
        [{ team := "3팀", case2 := "70.0(2025-02-03 14:30:00)", case3 := "" }] := by
  have hb : bestCell "3팀" Case.case2
      [{ team := "3팀", case2 := "70.0(2025-02-03 14:30:00)", case3 := "" }]
      = "70.0(2025-02-03 14:30:00)" := by decide
  refine (C1_best_score_monotonic_max.1 "3팀" (by decide) Case.case2 6500 "x" _).1 ?_
  rw [hb, parse_70cell]
  norm_num

/-- No-match branch of `_save_score`: a fresh row is appended after all
existing rows. -/
lemma saveScoreRows_nomatch (label value : String) (c : Case) (score : ℚ)
    (rs : List ScoreRow) (h : ∀ r ∈ rs, (strTrim r.team == label) = false) :
    saveScoreRows label c score value rs = rs ++ [mkScoreRow label c value] := by
  induction rs with
  | nil => rfl
  | cons r rs ih =>
    have hr := h r (List.mem_cons_self r rs)
    rw [saveScoreRows, if_neg (by simp [hr]), List.cons_append]
    rw [ih (fun x hx => h x (List.mem_cons_of_mem r hx))]

/-- Match branch of `_save_score`: only the first matching row is touched,
all rows before and after it are kept verbatim. -/
lemma saveScoreRows_match (label value : String) (c : Case) (score : ℚ)
    (r : ScoreRow) (post : List ScoreRow) (hr : (strTrim r.team == label) = true) :
    ∀ pre : List ScoreRow, (∀ x ∈ pre, (strTrim x.team == label) = false) →
      saveScoreRows label c score value (pre ++ r :: post)
        = pre ++ (if score > parse_score_from_cell (getCell r c)
            then setCell r c value else r) :: post := by
  intro pre
  induction pre with
  | nil =>
    intro _
    rw [List.nil_append, List.nil_append, saveScoreRows, if_pos hr]
  | cons p pre ih =>
    intro h
    have hp := h p (List.mem_cons_self p pre)
    rw [List.cons_append, saveScoreRows, if_neg (by simp [hp]), List.cons_append]
    rw [ih (fun x hx => h x (List.mem_cons_of_mem p hx))]

/-- C10: frame property of the best-score writer — a call for `(team, case)`
changes at most the single matching cell: with no matching row exactly one
new row is appended (other case's cell empty, team label set) and every
existing row is untouched; with a first matching row `r` (no earlier row
matches) every other row is preserved verbatim and `r` keeps its team label
and its other-case cell. -/
theorem C10_best_score_frame (label value : String) (c : Case) (score : ℚ)
    (rs : List ScoreRow) :
    ((∀ r ∈ rs, (strTrim r.team == label) = false) →
      saveScoreRows label c score value rs = rs ++ [mkScoreRow label c value] ∧
      getCell (mkScoreRow label c value) (otherCase c) = "" ∧
      (mkScoreRow label c value).team = label) ∧
    (∀ (pre post : List ScoreRow) (r : ScoreRow), rs = pre ++ r :: post →
      (∀ x ∈ pre, (strTrim x.team == label) = false) →
      (strTrim r.team == label) = true →
      saveScoreRows label c score value rs
        = pre ++ (if score > parse_score_from_cell (getCell r c)
            then setCell r c value else r) :: post ∧
      (setCell r c value).team = r.team ∧
      getCell (setCell r c value) (otherCase c) = getCell r (otherCase c)) := by
  constructor
  · intro h
    exact ⟨saveScoreRows_nomatch label value c score rs h,
      getCell_mkScoreRow_other label c value, mkScoreRow_team label c value⟩
  · intro pre post r hrs hpre hr
    subst hrs
    exact ⟨saveScoreRows_match label value c score r post hr pre hpre,
      setCell_team r c value, getCell_setCell_other r c value⟩

/-- Witness for C10: both branches at concrete inputs — an empty table gets
exactly the new row appended, and a table whose only row matches keeps its
shape with only the matching cell possibly updated. -/
theorem C10_best_score_frame_witness :
    (saveScoreRows "3팀" Case.case2 (50 : ℚ) "v" [] = [] ++ [mkScoreRow "3팀" Case.case2 "v"] ∧
      getCell (mkScoreRow "3팀" Case.case2 "v") (otherCase Case.case2) = "" ∧
      (mkScoreRow "3팀" Case.case2 "v").team = "3팀") ∧
    (saveScoreRows "3팀" Case.case2 (50 : ℚ) "v"
        [{ team := "3팀", case2 := "", case3 := "x" }]
      = [] ++ (if (50 : ℚ) > parse_score_from_cell
          (getCell { team := "3팀", case2 := "", case3 := "x" } Case.case2)
          then setCell { team := "3팀", case2 := "", case3 := "x" } Case.case2 "v"
          else { team := "3팀", case2 := "", case3 := "x" }) :: [] ∧
      (setCell { team := "3팀", case2 := "", case3 := "x" } Case.case2 "v").team
        = ({ team := "3팀", case2 := "", case3 := "x" } : ScoreRow).team ∧
      getCell (setCell { team := "3팀", case2 := "", case3 := "x" } Case.case2 "v")
          (otherCase Case.case2)
        = getCell { team := "3팀", case2 := "", case3 := "x" } (otherCase Case.case2)) := by
  constructor
  · exact (C10_best_score_frame "3팀" "v" Case.case2 50 []).1 (by simp)
  · exact (C10_best_score_frame "3팀" "v" Case.case2 50
      [{ team := "3팀", case2 := "", case3 := "x" }]).2 [] []
      { team := "3팀", case2 := "", case3 := "x" } rfl (by simp) (by decide)

/-- C4: validation-error atomicity — a missing `predict` column and a
missing answer file each return `status = error` with the corresponding
message (score `0`), and the ledger state (all three persisted files) is
returned unchanged. -/
theorem C4_validation_atomicity (c : Case) (team_id : ℤ) (ans : AnswerFile)
    (now : String) (st : Ledger) (p : List ℤ) :
    run_scoring .noPredict c team_id ans now st
      = (⟨0, "제출 파일에 \x27predict\x27 컬럼이 없습니다.", .error⟩, st) ∧
    run_scoring (.predict p) c team_id .absent now st
      = (⟨0, "정답 파일이 없습니다: " ++ answerName c, .error⟩, st) :=
  ⟨rfl, rfl⟩

/-- C7 counterexample: the best-score writer does NOT swallow a read/parse
failure of its own file — `_save_score` has no try/except around
`pd.read_csv`, so an unreadable `save_score.csv` propagates the exception
out of the writer instead of resetting to an empty table and proceeding. -/
theorem C7_counterexample :
    save_score 1 Case.case2 70 "2025-01-01 00:00:00"
        (CsvFile.unreadable "No columns to parse from file")
      = Except.error "No columns to parse from file" := rfl

/-- C7 amended: the recent-log and audit-log writers swallow a read/parse
failure of their own file (reset to an empty table, then append and
proceed), and the best-score writer resets only on a missing file or a
schema mismatch — an unreadable file makes it propagate the exception. -/
theorem C7_writer_corruption (team_id : ℤ) (c : Case) (score : ℚ) (ts msg : String) :
    append_recent team_id c score ts (.unreadable msg) = [mkRecentRow team_id c score ts] ∧
    append_save_db team_id c score ts (.unreadable msg) = [mkRecentRow team_id c score ts] ∧
    append_recent team_id c score ts .wrongSchema = [mkRecentRow team_id c score ts] ∧
    append_save_db team_id c score ts .wrongSchema = [mkRecentRow team_id c score ts] ∧
    save_score team_id c score ts (.unreadable msg) = Except.error msg ∧
    save_score team_id c score ts .wrongSchema
      = Except.ok [mkScoreRow (teamLabel team_id) c (scoreValue score ts)] :=
  ⟨rfl, rfl, rfl, rfl, rfl, rfl⟩

/-- The recent view after a sequence of successful calls, newest first. -/
lemma load_recent_after (es : List RecEvent) (limit : ℕ) :
    load_recent_submissions (recentAfter es .absent) limit
      = (es.map eventRow).reverse.take (min limit 10) := by
  cases es with
  | nil => simp [recentAfter, load_recent_submissions]
  | cons e es =>
    have habs : recentAfter (e :: es) .absent = recentAfter (e :: es) (.table []) := rfl
    rw [habs, recentAfter_table (e :: es) [] (by simp), load_recent_submissions]
    have hfilter : (tailN 10 (List.map eventRow (e :: es))).filter (fun r => !rowAllNA r)
        = tailN 10 (List.map eventRow (e :: es)) := by
      rw [List.filter_eq_self]
      intro r hr
      obtain ⟨x, _, rfl⟩ := List.mem_map.mp (tailN_subset 10 _ hr)
      simp [rowAllNA_eventRow]
    rw [List.nil_append, hfilter, tailN_reverse, tailN_reverse, List.take_take]

/-- C5: recency-log bound and ordering — starting from an absent or empty
`score_recent.csv`, after `n` successful scoring calls the file holds
exactly the last `min n 10` appended rows in chronological file order, and
`load_recent_submissions limit` returns at most `limit` entries in
newest-first order (the reverse of file order, capped at the 10 retained
rows). -/
theorem C5_recency_log (es : List RecEvent) (limit : ℕ) :
    baseRows (recentAfter es .absent) = tailN 10 (es.map eventRow) ∧
    baseRows (recentAfter es (.table [])) = tailN 10 (es.map eventRow) ∧
    (baseRows (recentAfter es .absent)).length = min es.length 10 ∧
    load_recent_submissions (recentAfter es .absent) limit
      = (es.map eventRow).reverse.take (min limit 10) ∧
    (load_recent_submissions (recentAfter es .absent) limit).length ≤ limit := by
  obtain ⟨h1, h2⟩ := recentAfter_baseRows es
  refine ⟨h1, h2, ?_, load_recent_after es limit, ?_⟩
  · rw [h1, tailN_length, List.length_map]
  · rw [load_recent_after es limit, List.length_take]
    omega

/-- C6: audit-log completeness — `_append_save_db` appends exactly one row
per call and never truncates, whatever the prior file state (a missing,
unreadable or schema-mismatched file reads as empty), so starting from an
absent or empty `save_db.csv` the row count after a sequence of calls that
reached it equals exactly the number of those calls, independently of the
best-score table and recency log (which the writer never consults). -/
theorem C6_audit_log (e : RecEvent) (rows : List RecentRow) (msg : String)
    (es : List RecEvent) :
    append_save_db e.tid e.c e.score e.ts (.table rows) = rows ++ [eventRow e] ∧
    append_save_db e.tid e.c e.score e.ts .absent = [eventRow e] ∧
    append_save_db e.tid e.c e.score e.ts (.unreadable msg) = [eventRow e] ∧
    append_save_db e.tid e.c e.score e.ts .wrongSchema = [eventRow e] ∧
    baseRows (dbAfter es .absent) = es.map eventRow ∧
    baseRows (dbAfter es (.table [])) = es.map eventRow ∧
    (baseRows (dbAfter es .absent)).length = es.length := by
  obtain ⟨h1, h2⟩ := dbAfter_baseRows es
  exact ⟨rfl, rfl, rfl, rfl, h1, h2, by rw [h1, List.length_map]⟩

/-- C2 counterexample: a fully valid submission (predict present and
integer, answer file present with integer answers, non-empty aligned data)
still returns `status = error` when the existing `save_score.csv` is one
`pd.read_csv` raises on (e.g. an empty file, `EmptyDataError`), because
`_save_score` reads it without a try/except inside the scoring call. -/
theorem C2_counterexample :
    (run_scoring (.predict [1]) Case.case2 1 (.answers [1]) "2025-01-01 00:00:00"
        { saveScore := .unreadable "No columns to parse from file",
          recent := .absent, saveDb := .absent }).1.status = Status.error ∧
    (run_scoring (.predict [1]) Case.case2 1 (.answers [1]) "2025-01-01 00:00:00"
        { saveScore := .unreadable "No columns to parse from file",
          recent := .absent, saveDb := .absent }).1.score = 0 :=
  ⟨rfl, rfl⟩

/-- C2 amended: for every valid submission (predict column coerced to
integers, answer file present with integer answers, non-empty aligned
data), provided the existing best-score file is not one `pd.read_csv`
fails on, `run_scoring` returns `status = ok` with a score in `[0, 100]`
that is an integer number of hundredths (rounded to 2 decimal places). -/
theorem C2_valid_submission_score (p a : List ℤ) (c : Case) (team_id : ℤ)
    (now : String) (st : Ledger) (hp : p ≠ []) (ha : a ≠ [])
    (hs : ∀ msg, st.saveScore ≠ .unreadable msg) :
    (run_scoring (.predict p) c team_id (.answers a) now st).1.status = .ok ∧
    0 ≤ (run_scoring (.predict p) c team_id (.answers a) now st).1.score ∧
    (run_scoring (.predict p) c team_id (.answers a) now st).1.score ≤ 100 ∧
    ∃ k : ℤ, (run_scoring (.predict p) c team_id (.answers a) now st).1.score
      = (k : ℚ) / 100 := by
  have hm : ¬ (min p.length a.length = 0) := by
    have h1 : p.length ≠ 0 := fun h => hp (List.length_eq_zero.mp h)
    have h2 : a.length ≠ 0 := fun h => ha (List.length_eq_zero.mp h)
    omega
  have hok : ∀ sc : ℚ, ∃ rows, save_score team_id c sc now st.saveScore = Except.ok rows := by
    intro sc
    cases hss : st.saveScore with
    | unreadable msg => exact absurd hss (hs msg)
    | absent => exact ⟨_, rfl⟩
    | wrongSchema => exact ⟨_, rfl⟩
    | table rows => exact ⟨_, rfl⟩
  obtain ⟨rows, hrows⟩ := hok (round2 (accuracy_score
    (a.take (min p.length a.length)) (p.take (min p.length a.length)) * 100))
  have hnn : (0 : ℚ) ≤ accuracy_score
      (a.take (min p.length a.length)) (p.take (min p.length a.length)) * 100 :=
    mul_nonneg (accuracy_score_nonneg _ _) (by norm_num)
  have hle : accuracy_score
      (a.take (min p.length a.length)) (p.take (min p.length a.length)) * 100 ≤ 100 := by
    have := accuracy_score_le_one (a.take (min p.length a.length))
      (p.take (min p.length a.length))
    nlinarith
  have hrun : run_scoring (.predict p) c team_id (.answers a) now st
      = ({ score := round2 (accuracy_score (a.take (min p.length a.length))
             (p.take (min p.length a.length)) * 100),
           details := "Case: " ++ caseStr c ++ ", Team " ++ toString team_id ++
             ", accuracy(0~100): " ++ renderScore (round2 (accuracy_score
               (a.take (min p.length a.length)) (p.take (min p.length a.length)) * 100)) ++
             ", 제출시각: " ++ now,
           status := .ok },
         { saveScore := .table rows,
           recent := .table (append_recent team_id c (round2 (accuracy_score
             (a.take (min p.length a.length)) (p.take (min p.length a.length)) * 100))
             now st.recent),
           saveDb := .table (append_save_db team_id c (round2 (accuracy_score
             (a.take (min p.length a.length)) (p.take (min p.length a.length)) * 100))
             now st.saveDb) }) := by
    simp only [run_scoring, if_neg hm, hrows]
  rw [hrun]
  exact ⟨rfl, round2_nonneg _ hnn, round2_le_100 _ hle, ⟨_, rfl⟩⟩

/-- Witness for C2: the valid submission `[1]` against answers `[1]` on a
fresh ledger scores `ok` within bounds. -/
theorem C2_valid_submission_score_witness :
    (run_scoring (.predict [1]) Case.case2 1 (.answers [1]) "2025-01-01 00:00:00"
        { saveScore := .absent, recent := .absent, saveDb := .absent }).1.status = .ok ∧
    0 ≤ (run_scoring (.predict [1]) Case.case2 1 (.answers [1]) "2025-01-01 00:00:00"
        { saveScore := .absent, recent := .absent, saveDb := .absent }).1.score ∧
    (run_scoring (.predict [1]) Case.case2 1 (.answers [1]) "2025-01-01 00:00:00"
        { saveScore := .absent, recent := .absent, saveDb := .absent }).1.score ≤ 100 ∧
    ∃ k : ℤ, (run_scoring (.predict [1]) Case.case2 1 (.answers [1]) "2025-01-01 00:00:00"
        { saveScore := .absent, recent := .absent, saveDb := .absent }).1.score
      = (k : ℚ) / 100 :=
  C2_valid_submission_score [1] [1] Case.case2 1 "2025-01-01 00:00:00"
    { saveScore := .absent, recent := .absent, saveDb := .absent }
    (by simp) (by simp) (fun msg => by simp)

/-- C3: length-mismatch handling — `run_scoring` behaves identically on
`(predict, answer)` and on both lists truncated to the shorter length (no
error is raised for the mismatch); a truncated length of zero yields the
empty-data error; concretely `predict = [1,0,1,1,0,0,0]` against
`answer = [1,0,1,0,0]` compares only the first 5 positions and returns
`80.0` with `status = ok`. -/
theorem C3_truncation (p a : List ℤ) (c : Case) (team_id : ℤ) (now : String)
    (st : Ledger) :
    run_scoring (.predict p) c team_id (.answers a) now st
      = run_scoring (.predict (p.take (min p.length a.length))) c team_id
          (.answers (a.take (min p.length a.length))) now st ∧
    (min p.length a.length = 0 →
      (run_scoring (.predict p) c team_id (.answers a) now st).1.status = .error) ∧
    (run_scoring (.predict [1, 0, 1, 1, 0, 0, 0]) .case2 3 (.answers [1, 0, 1, 0, 0])
        "2025-01-01 00:00:00"
        { saveScore := .absent, recent := .absent, saveDb := .absent }).1.score = 80 ∧
    (run_scoring (.predict [1, 0, 1, 1, 0, 0, 0]) .case2 3 (.answers [1, 0, 1, 0, 0])
        "2025-01-01 00:00:00"
        { saveScore := .absent, recent := .absent, saveDb := .absent }).1.status = .ok := by
  refine ⟨?_, ?_, ?_, rfl⟩
  · have h1 : (p.take (min p.length a.length)).length = min p.length a.length := by
      rw [List.length_take]
      omega
    have h2 : (a.take (min p.length a.length)).length = min p.length a.length := by
      rw [List.length_take]
      omega
    simp only [run_scoring, h1, h2, min_self, List.take_take]
  · intro h0
    simp only [run_scoring, if_pos h0]
  · have hkey : (run_scoring (.predict [1, 0, 1, 1, 0, 0, 0]) .case2 3
        (.answers [1, 0, 1, 0, 0]) "2025-01-01 00:00:00"
        { saveScore := .absent, recent := .absent, saveDb := .absent }).1.score
        = round2 (accuracy_score [1, 0, 1, 0, 0] [1, 0, 1, 1, 0] * 100) := rfl
    have hacc : accuracy_score [1, 0, 1, 0, 0] [1, 0, 1, 1, 0] = 4 / 5 := by
      unfold accuracy_score
      rw [(by decide : countEq [1, 0, 1, 0, 0] [1, 0, 1, 1, 0] = 4)]
      norm_num
    have h80 : round2 ((4 : ℚ) / 5 * 100) = 80 := by
      unfold round2
      have he : ((4 : ℚ) / 5 * 100) * 100 = ((8000 : ℤ) : ℚ) := by norm_num
      rw [he, roundHalfEven_intCast]
      norm_num
    rw [hkey, hacc, h80]

/-- Witness for C3: with empty inputs the truncated length is zero and the
call reports the empty-data error. -/
theorem C3_truncation_witness :
    (run_scoring (.predict ([] : List ℤ)) Case.case2 1 (.answers []) "t"
        { saveScore := .absent, recent := .absent, saveDb := .absent }).1.status
      = Status.error :=
  (C3_truncation [] [] Case.case2 1 "t"
    { saveScore := .absent, recent := .absent, saveDb := .absent }).2.1 rfl

/-- C8 amended: no public operation raises — every error condition of
`run_scoring` comes back as a result with `status = error` and score `0`
(the catch-all surfacing the exception message verbatim, as for an
unreadable upload, a non-integer predict column, or an
unreadable/uncoercible answer file); `load_recent_submissions` returns an
empty result whenever its backing file is missing or reading it fails; and
`load_scoreboard` returns empty on a missing or unreadable file or a
missing `team` column, while an exception inside its row loop (a team
label whose numeric part `int()` cannot parse) makes it return — still
without raising — the board accumulated up to the failing row, which need
not be empty. -/
theorem C8_no_raise (u : UploadData) (c : Case) (team_id : ℤ) (ans : AnswerFile)
    (now msg : String) (st : Ledger) (p : List ℤ) (limit : ℕ) :
    ((run_scoring u c team_id ans now st).1.status = .error →
      (run_scoring u c team_id ans now st).1.score = 0) ∧
    run_scoring (.unreadable msg) c team_id ans now st = (⟨0, msg, .error⟩, st) ∧
    run_scoring (.badPredict msg) c team_id ans now st = (⟨0, msg, .error⟩, st) ∧
    run_scoring (.predict p) c team_id (.unreadable msg) now st = (⟨0, msg, .error⟩, st) ∧
    run_scoring (.predict p) c team_id (.badAnswer msg) now st = (⟨0, msg, .error⟩, st) ∧
    load_scoreboard .absent = [] ∧
    load_scoreboard (.unreadable msg) = [] ∧
    load_scoreboard .wrongSchema = [] ∧
    load_recent_submissions .absent limit = [] ∧
    load_recent_submissions (.unreadable msg) limit = [] ∧
    (∀ (r : ScoreRow) (rest : List ScoreRow) (acc : List BoardEntry),
      (strTrim r.team == "" || !strEndsWith (strTrim r.team) "팀") = false →
      parseIntStr (strRemoveAll (strTrim r.team) "팀") = none →
      loadBoardRows (r :: rest) acc = acc) := by
  refine ⟨?_, rfl, rfl, rfl, rfl, rfl, rfl, rfl, rfl, rfl, ?_⟩
  · cases u with
    | unreadable m => intro _; rfl
    | noPredict => intro _; rfl
    | badPredict m => intro _; rfl
    | predict pv =>
      cases ans with
      | absent => intro _; rfl
      | unreadable m => intro _; rfl
      | noAnswerCol => intro _; rfl
      | badAnswer m => intro _; rfl
      | answers av =>
        by_cases h0 : min pv.length av.length = 0
        · intro _
          simp only [run_scoring, if_pos h0]
        · cases hss : st.saveScore with
          | unreadable m =>
            intro _
            simp only [run_scoring, if_neg h0, hss, save_score]
          | absent =>
            intro hst
            simp only [run_scoring, if_neg h0, hss, save_score] at hst
            exact Status.noConfusion hst
          | wrongSchema =>
            intro hst
            simp only [run_scoring, if_neg h0, hss, save_score] at hst
            exact Status.noConfusion hst
          | table rows =>
            intro hst
            simp only [run_scoring, if_neg h0, hss, save_score] at hst
            exact Status.noConfusion hst
  · intro r rest acc h1 h2
    simp only [loadBoardRows]
    rw [if_neg (by simp [h1]), h2]

/-- C8 counterexample: an internal error inside `load_scoreboard`'s row
loop does NOT yield an empty result — with a first well-formed row for team
3 and a second row whose team label `x팀` makes `int("x")` raise, the
`except: pass` returns the board accumulated so far, which already holds
team 3's entry. -/
theorem C8_counterexample :
    load_scoreboard (.table
      [{ team := "3팀", case2 := "70.0(t)", case3 := "" },
       { team := "x팀", case2 := "50.0(t)", case3 := "" }])
      = [(3, Case.case2, 70, "최고점 기록: 70.0(t)")] ∧
    load_scoreboard (.table
      [{ team := "3팀", case2 := "70.0(t)", case3 := "" },
       { team := "x팀", case2 := "50.0(t)", case3 := "" }])
      ≠ ([] : List BoardEntry) := by
  have hc1 : cellEntry [] 3 Case.case2 { team := "3팀", case2 := "70.0(t)", case3 := "" }
      = [(3, Case.case2, 70, "최고점 기록: 70.0(t)")] := by
    simp only [cellEntry, getCell]
    rw [if_neg (by decide), parse_70t, if_neg (by norm_num)]
    simp only [List.nil_append]
    rw [(by decide : String.mk (trimChars ("70.0(t)" : String).data) = "70.0(t)")]
    decide
  have hc2 : cellEntry [(3, Case.case2, 70, "최고점 기록: 70.0(t)")] 3 Case.case3
      { team := "3팀", case2 := "70.0(t)", case3 := "" }
      = [(3, Case.case2, 70, "최고점 기록: 70.0(t)")] := by
    simp only [cellEntry, getCell]
    rw [if_pos (by decide)]
  have step1 : load_scoreboard (.table
      [{ team := "3팀", case2 := "70.0(t)", case3 := "" },
       { team := "x팀", case2 := "50.0(t)", case3 := "" }])
      = loadBoardRows [{ team := "x팀", case2 := "50.0(t)", case3 := "" }]
          (cellEntry (cellEntry [] 3 Case.case2
            { team := "3팀", case2 := "70.0(t)", case3 := "" }) 3 Case.case3
            { team := "3팀", case2 := "70.0(t)", case3 := "" }) := by
    simp only [load_scoreboard, loadBoardRows]
    rw [if_neg (by decide),
      (by decide : parseIntStr (strRemoveAll (strTrim "3팀") "팀") = some 3)]
  have step2 : loadBoardRows [{ team := "x팀", case2 := "50.0(t)", case3 := "" }]
      [(3, Case.case2, 70, "최고점 기록: 70.0(t)")]
      = [(3, Case.case2, 70, "최고점 기록: 70.0(t)")] := by
    simp only [loadBoardRows]
    rw [if_neg (by decide),
      (by decide : parseIntStr (strRemoveAll (strTrim "x팀") "팀") = none)]
  rw [step1, hc1, hc2, step2]
  exact ⟨rfl, by simp⟩

/-- Witness for C8: the missing-predict error reports score `0`, and the
row loop stops with the accumulated board on an unparsable team label. -/
theorem C8_no_raise_witness :
    (run_scoring .noPredict Case.case2 1 AnswerFile.absent "t"
        { saveScore := .absent, recent := .absent, saveDb := .absent }).1.score = 0 ∧
    loadBoardRows [{ team := "x팀", case2 := "50.0(t)", case3 := "" }]
        [(3, Case.case2, 70, "s")] = [(3, Case.case2, 70, "s")] :=
  ⟨(C8_no_raise .noPredict Case.case2 1 AnswerFile.absent "t" "m"
      { saveScore := .absent, recent := .absent, saveDb := .absent } [] 0).1 rfl,
   (C8_no_raise .noPredict Case.case2 1 AnswerFile.absent "t" "m"
      { saveScore := .absent, recent := .absent, saveDb := .absent } [] 0).2.2.2.2.2.2.2.2.2.2
     { team := "x팀", case2 := "50.0(t)", case3 := "" } [] [(3, Case.case2, 70, "s")]
     (by decide) (by decide)⟩

/-- C6 counterexample: a scoring call that reaches the persistence stage
but whose best-score file read throws appends nothing to the audit log —
the call aborts inside `_save_score` before `_append_save_db` runs, so the
audit row count does depend on the best-score file's state. -/
theorem C6_counterexample :
    (run_scoring (.predict [1]) Case.case2 1 (.answers [1]) "2025-01-01 00:00:00"
        { saveScore := .unreadable "No columns to parse from file",
          recent := .absent, saveDb := .absent }).2.saveDb = CsvFile.absent := rfl

end Scoring
